import Mathlib

set_option maxRecDepth 8000

/-!
Formal model of the enrichment / merge decision engine of the
`pogo-receipts-service` repository (TypeScript).

The development shallowly embeds the code of
- `src/services/enrichment.ts` (`enrichReceiptData`, `standardizeBrand`,
  `parseProductCategory`, the zod `EnrichmentSchema`), and
- the `POST /receipt` handler in `src/server.ts` (`createApp`): field
  extraction via `lowercase || UPPERCASE` property reads, the inline
  category-string JSON parsing, `needsEnrichment`, the brand/category
  reconciliation, `parseFloat` price coercion, and the assembled
  `insertData` record.

JavaScript values flowing through the handler are modelled by the
inductive type `Json` (JSON values) together with `Option` for
`undefined` (`JsVal := Option Json`); machine floats are modelled by
exact decimal rationals (`Rat`) plus explicit `nan` / infinity
constructors, which is value-faithful for every comparison made in the
code; JS exceptions of the external text-generation call are modelled by
`Except`.  `JSON.parse` is modelled by an executable recursive-descent
parser of the JSON grammar (`Json.parse`).
-/

/-- JSON value, as produced by the JavaScript `JSON.parse`.  Numbers are
kept as exact decimal rationals (no arithmetic is ever performed on them
by the code under study, only propagation and truthiness tests). -/
inductive Json where
  | null
  | bool (b : Bool)
  | num (q : Rat)
  | str (s : String)
  | arr (elems : List Json)
  | obj (fields : List (String × Json))
deriving Repr, Inhabited

/-- The character `{`. -/
def lbraceChar : Char := Char.ofNat 123

/-- The character `}`. -/
def rbraceChar : Char := Char.ofNat 125

/-- JSON insignificant whitespace (RFC 8259: space, tab, newline, carriage
return). -/
def jsonWs (c : Char) : Bool := c = ' ' || c = '\t' || c = '\n' || c = '\r'

/-- Drop leading JSON whitespace. -/
def skipJsonWs (cs : List Char) : List Char := cs.dropWhile jsonWs

/-- Value of a hexadecimal digit. -/
def hexVal (c : Char) : Option Nat :=
  if '0' ≤ c ∧ c ≤ '9' then some (c.toNat - 48)
  else if 'a' ≤ c ∧ c ≤ 'f' then some (c.toNat - 87)
  else if 'A' ≤ c ∧ c ≤ 'F' then some (c.toNat - 55)
  else none

/-- Parse the body of a JSON string literal (the opening quote already
consumed); returns the decoded characters and the remaining input.
Handles the JSON escapes and rejects raw control characters, like
`JSON.parse`. -/
def parseJsonStringChars : List Char → Option (List Char × List Char)
  | [] => none
  | c :: rest =>
    if c = '"' then some ([], rest)
    else if c = '\\' then
      match rest with
      | [] => none
      | 'u' :: a :: b :: c2 :: d :: rest3 =>
        match hexVal a, hexVal b, hexVal c2, hexVal d with
        | some h1, some h2, some h3, some h4 =>
          (parseJsonStringChars rest3).map
            (fun p => (Char.ofNat (((h1 * 16 + h2) * 16 + h3) * 16 + h4) :: p.1, p.2))
        | _, _, _, _ => none
      | e :: rest2 =>
        if e = '"' || e = '\\' || e = '/' then
          (parseJsonStringChars rest2).map (fun p => (e :: p.1, p.2))
        else if e = 'b' then
          (parseJsonStringChars rest2).map (fun p => ((Char.ofNat 8) :: p.1, p.2))
        else if e = 'f' then
          (parseJsonStringChars rest2).map (fun p => ((Char.ofNat 12) :: p.1, p.2))
        else if e = 'n' then
          (parseJsonStringChars rest2).map (fun p => ('\n' :: p.1, p.2))
        else if e = 'r' then
          (parseJsonStringChars rest2).map (fun p => ('\r' :: p.1, p.2))
        else if e = 't' then
          (parseJsonStringChars rest2).map (fun p => ('\t' :: p.1, p.2))
        else none
    else if c.toNat < 32 then none
    else (parseJsonStringChars rest).map (fun p => (c :: p.1, p.2))

/-- Decimal digit test. -/
def isDigitChar (c : Char) : Bool := '0' ≤ c && c ≤ '9'

/-- Numeric value of a list of decimal digits. -/
def digitsToNat (ds : List Char) : Nat := ds.foldl (fun n c => 10 * n + (c.toNat - 48)) 0

/-- Exact rational value of a parsed decimal literal
`(-1)^neg * intfrac * 10^(ex - fracLen)`, where `intfrac` is the
juxtaposition of the integer and fraction digits.  Written with integer
arithmetic and `Rat.divInt` only, so that the kernel can evaluate it. -/
def ratOfParts (neg : Bool) (intfrac : Nat) (fracLen : Nat) (ex : Int) : Rat :=
  let n : Int := if neg then -(intfrac : Int) else (intfrac : Int)
  if 0 ≤ ex then
    Rat.divInt (n * (10 : Int) ^ ex.toNat) ((10 : Int) ^ fracLen)
  else
    Rat.divInt n ((10 : Int) ^ (fracLen + (-ex).toNat))

/-- Parse a JSON number literal (grammar of RFC 8259: optional minus,
integer part without leading zeros, optional fraction, optional
exponent), returning its exact rational value and the remaining input. -/
def parseJsonNumber (cs : List Char) : Option (Rat × List Char) :=
  let signed := match cs with
    | '-' :: r => (true, r)
    | _ => (false, cs)
  let neg := signed.1
  let cs1 := signed.2
  let intDs := cs1.takeWhile isDigitChar
  let cs2 := cs1.drop intDs.length
  if intDs = [] then none
  else if intDs.length > 1 && intDs.headD '0' = '0' then none
  else
    let fracPart : Option (List Char × List Char) := match cs2 with
      | '.' :: r =>
        let fds := r.takeWhile isDigitChar
        if fds = [] then none else some (fds, r.drop fds.length)
      | _ => some ([], cs2)
    match fracPart with
    | none => none
    | some (fds, cs3) =>
      let expPart : Option (Int × List Char) := match cs3 with
        | e :: r =>
          if e = 'e' || e = 'E' then
            let esigned := match r with
              | '-' :: r2 => ((-1 : Int), r2)
              | '+' :: r2 => ((1 : Int), r2)
              | _ => ((1 : Int), r)
            let eds := esigned.2.takeWhile isDigitChar
            if eds = [] then none
            else some (esigned.1 * (digitsToNat eds : Int), esigned.2.drop eds.length)
          else some (0, cs3)
        | [] => some (0, cs3)
      match expPart with
      | none => none
      | some (ex, cs4) =>
        some (ratOfParts neg (digitsToNat (intDs ++ fds)) fds.length ex, cs4)

/-- Parsing modes of the recursive-descent JSON parser: a single value,
the elements of a non-empty array (after its `[`), or the members of a
non-empty object (after its `{`).  Folding the three mutually recursive
parsers into one fuel-structural function keeps every equation
kernel-reducible. -/
inductive PMode where
  | value
  | arrayRest
  | objRest

/-- Fuel-indexed recursive-descent JSON parser.  In mode `arrayRest`
(resp. `objRest`) the parsed elements (members) are returned wrapped in
`Json.arr` (resp. `Json.obj`). -/
def parseJ : Nat → PMode → List Char → Option (Json × List Char)
  | 0, _, _ => none
  | fuel + 1, .value, cs =>
    match skipJsonWs cs with
    | [] => none
    | c :: rest =>
      if c = '"' then
        (parseJsonStringChars rest).map (fun p => (Json.str (String.mk p.1), p.2))
      else if c = '[' then
        match skipJsonWs rest with
        | ']' :: r => some (Json.arr [], r)
        | cs1 =>
          match parseJ fuel .arrayRest cs1 with
          | some (Json.arr xs, r) => some (Json.arr xs, r)
          | _ => none
      else if c = lbraceChar then
        match skipJsonWs rest with
        | c1 :: r =>
          if c1 = rbraceChar then some (Json.obj [], r)
          else
            match parseJ fuel .objRest (c1 :: r) with
            | some (Json.obj fs, r2) => some (Json.obj fs, r2)
            | _ => none
        | [] => none
      else if c = 't' then
        if rest.take 3 = ['r', 'u', 'e'] then some (Json.bool true, rest.drop 3) else none
      else if c = 'f' then
        if rest.take 4 = ['a', 'l', 's', 'e'] then some (Json.bool false, rest.drop 4) else none
      else if c = 'n' then
        if rest.take 3 = ['u', 'l', 'l'] then some (Json.null, rest.drop 3) else none
      else
        (parseJsonNumber (c :: rest)).map (fun p => (Json.num p.1, p.2))
  | fuel + 1, .arrayRest, cs =>
    match parseJ fuel .value cs with
    | none => none
    | some (v, cs1) =>
      match skipJsonWs cs1 with
      | ']' :: r => some (Json.arr [v], r)
      | ',' :: r =>
        match parseJ fuel .arrayRest r with
        | some (Json.arr vs, r2) => some (Json.arr (v :: vs), r2)
        | _ => none
      | _ => none
  | fuel + 1, .objRest, cs =>
    match skipJsonWs cs with
    | '"' :: r =>
      match parseJsonStringChars r with
      | none => none
      | some (key, r1) =>
        match skipJsonWs r1 with
        | ':' :: r3 =>
          match parseJ fuel .value r3 with
          | none => none
          | some (v, r4) =>
            match skipJsonWs r4 with
            | rb :: r6 =>
              if rb = rbraceChar then some (Json.obj [(String.mk key, v)], r6)
              else if rb = ',' then
                match parseJ fuel .objRest r6 with
                | some (Json.obj fs, r2) => some (Json.obj ((String.mk key, v) :: fs), r2)
                | _ => none
              else none
            | [] => none
        | _ => none
    | _ => none

/-- Model of the JavaScript `JSON.parse`: parse a complete JSON text
(leading/trailing whitespace allowed, nothing else may remain). -/
def Json.parse (s : String) : Option Json :=
  match parseJ (2 * s.length + 2) .value s.toList with
  | some (v, rest) => if skipJsonWs rest = [] then some v else none
  | none => none

/-- Model of `JSON.stringify` on an array of strings (the only shape the
spec round-trip property needs): no inserted whitespace, strings quoted
with the standard JSON escapes. -/
def jsonEscapeChar (c : Char) : List Char :=
  if c = '"' then ['\\', '"']
  else if c = '\\' then ['\\', '\\']
  else if c = '\n' then ['\\', 'n']
  else if c = '\t' then ['\\', 't']
  else if c = '\r' then ['\\', 'r']
  else if c.toNat = 8 then ['\\', 'b']
  else if c.toNat = 12 then ['\\', 'f']
  else if c.toNat < 32 then
    ['\\', 'u', '0', '0',
      (Nat.digitChar (c.toNat / 16)), (Nat.digitChar (c.toNat % 16))]
  else [c]

/-- Quote one string as a JSON string literal. -/
def jsonQuote (s : String) : String :=
  "\"" ++ String.mk (s.toList.flatMap jsonEscapeChar) ++ "\""

/-- `JSON.stringify` of an array of strings. -/
def stringifyStrArr (xs : List String) : String :=
  "[" ++ String.intercalate "," (xs.map jsonQuote) ++ "]"

/-- JavaScript value as seen by the route handler: `none` models
`undefined`, `some j` a defined JSON value (`Json.null` models `null`). -/
abbrev JsVal := Option Json

/-- JavaScript truthiness of a defined value. -/
def Json.truthy : Json → Bool
  | .null => false
  | .bool b => b
  | .num q => q != 0
  | .str s => s != ""
  | .arr _ => true
  | .obj _ => true

/-- JavaScript truthiness (`undefined` is falsy). -/
def JsVal.truthy : JsVal → Bool
  | none => false
  | some j => j.truthy

/-- The JavaScript `a || b` operator on values. -/
def jsOr (a b : JsVal) : JsVal := if a.truthy then a else b

/-- The backtick character. -/
def backtick : Char := Char.ofNat 96

/-- JavaScript regex `\s` class members occurring in practice (space,
tab, newline, carriage return, vertical tab, form feed). -/
def jsWsChar (c : Char) : Bool :=
  c = ' ' || c = '\t' || c = '\n' || c = '\r' || c = Char.ofNat 11 || c = Char.ofNat 12

/-- Does `\s*` followed by a closing fence ` ``` ` match here?  (Models
the tail `\s*``` ` of the extraction regex; nothing after the closing
fence is constrained.) -/
def closeFenceFollows (cs : List Char) : Bool :=
  match cs.dropWhile jsWsChar with
  | a :: b :: c :: _ => a = backtick && b = backtick && c = backtick
  | _ => false

/-- Lazy search for the `}` closing the capture group `(\{[\s\S]*?\})`:
the first `}` after which `\s*``` ` matches ends the capture; any earlier
`}` failing that check is swallowed into the lazily growing body, exactly
as the backtracking regex engine does. -/
def lazyBraceClose : List Char → List Char → Option String
  | [], _ => none
  | c :: rest, acc =>
    if c = rbraceChar && closeFenceFollows rest then
      some (String.mk (lbraceChar :: (acc.reverse ++ [rbraceChar])))
    else lazyBraceClose rest (c :: acc)

/-- Try to match the regex `` /```(?:json)?\s*(\{[\s\S]*?\})\s*```/ `` at
exactly this position, returning the first capture group.  The pattern is
deterministic once anchored: after the opening fence the optional literal
`json` is consumed when present (if it is present, matching without it
would face a `j` where `\s*\{` is required, so no backtracking arises),
then `\s*` runs to the mandatory `{`. -/
def fenceMatchAt (cs : List Char) : Option String :=
  match cs with
  | a :: b :: c :: rest =>
    if a = backtick && b = backtick && c = backtick then
      let rest2 := match rest with
        | 'j' :: 's' :: 'o' :: 'n' :: r => r
        | _ => rest
      match rest2.dropWhile jsWsChar with
      | d :: r2 => if d = lbraceChar then lazyBraceClose r2 [] else none
      | [] => none
    else none
  | _ => none

/-- Leftmost-match scan of the extraction regex over the response. -/
def extractJsonGo : List Char → Option String
  | [] => none
  | c :: rest =>
    match fenceMatchAt (c :: rest) with
    | some cap => some cap
    | none => extractJsonGo rest

/-- Model of lines 114–116 of `enrichReceiptData`:
`const jsonMatch = response.match(/```(?:json)?\s*(\{[\s\S]*?\})\s*```/);`
`const jsonString = jsonMatch ? jsonMatch[1] : response;` — extract the
JSON payload from a markdown code fence when one is present, otherwise
treat the whole response as candidate JSON. -/
def extractJson (response : String) : String :=
  match extractJsonGo response.toList with
  | some cap => cap
  | none => response

/-- Enrichment confidence tier (`z.enum(['high', 'medium', 'low'])`). -/
inductive Confidence where
  | high
  | medium
  | low
deriving DecidableEq, Repr

/-- Structured enrichment output, `EnrichmentResult` of
`src/services/enrichment.ts` (the full variant with detail fields). -/
structure EnrichmentResult where
  brand : String
  category : List String
  upc : Option String
  size : Option String
  color : Option String
  material : Option String
  model : Option String
  weight : Option String
  confidence : Confidence
deriving DecidableEq, Repr

/-- Property lookup on a parsed JSON object.  `JSON.parse` keeps the last
occurrence of a duplicated key, hence the `reverse`. -/
def objGet (fields : List (String × Json)) (k : String) : Option Json :=
  (fields.reverse.find? (fun p => p.1 == k)).map (fun p => p.2)

/-- `z.string()`. -/
def zodString : Json → Option String
  | .str s => some s
  | _ => none

/-- `z.string().nullable()`. -/
def zodNullableString : Json → Option (Option String)
  | .null => some none
  | .str s => some (some s)
  | _ => none

/-- Traverse a list of JSON values through `z.string()`, failing when
any element is not a string. -/
def mapZodString : List Json → Option (List String)
  | [] => some []
  | j :: rest =>
    match zodString j with
    | none => none
    | some s => (mapZodString rest).map (fun t => s :: t)

/-- `z.array(z.string())`.  Note: zod accepts the empty array here. -/
def zodStringArray : Json → Option (List String)
  | .arr xs => mapZodString xs
  | _ => none

/-- `z.enum(['high', 'medium', 'low'])`. -/
def zodConfidence : Json → Option Confidence
  | .str s =>
    if s = "high" then some .high
    else if s = "medium" then some .medium
    else if s = "low" then some .low
    else none
  | _ => none

/-- `EnrichmentSchema.parse` (zod): the input must be an object, every
one of the nine keys must be present with a value of the declared type
(unknown keys are stripped). Failure of any field makes the whole parse
fail, which the surrounding `try/catch` turns into the degraded
fallback. -/
def parseEnrichment (j : Json) : Option EnrichmentResult :=
  match j with
  | .obj fields => do
    let brand ← (objGet fields "brand").bind zodString
    let category ← (objGet fields "category").bind zodStringArray
    let upc ← (objGet fields "upc").bind zodNullableString
    let size ← (objGet fields "size").bind zodNullableString
    let color ← (objGet fields "color").bind zodNullableString
    let material ← (objGet fields "material").bind zodNullableString
    let model ← (objGet fields "model").bind zodNullableString
    let weight ← (objGet fields "weight").bind zodNullableString
    let confidence ← (objGet fields "confidence").bind zodConfidence
    pure { brand := brand, category := category, upc := upc, size := size,
           color := color, material := material, model := model,
           weight := weight, confidence := confidence }
  | _ => none

/-- The JavaScript expression `existingBrand || 'unknown'` of the catch
branch.  On this code path `existingBrand` is a string, `null` or
`undefined` (enforced by the request validation schema), so every
non-string case is falsy and yields the sentinel. -/
def jsOrUnknown (v : JsVal) : String :=
  match v with
  | some (.str s) => if s = "" then "unknown" else s
  | _ => "unknown"

/-- The degraded `EnrichmentResult` built in the `catch` branch of
`enrichReceiptData`. -/
def enrichmentFallback (existingBrand : JsVal) : EnrichmentResult :=
  { brand := jsOrUnknown existingBrand
    category := ["unknown"]
    upc := none
    size := none
    color := none
    material := none
    model := none
    weight := none
    confidence := .low }

/-- Model of `enrichReceiptData` (src/services/enrichment.ts, full
variant).  The external `generateLLMText` call is the only effect inside
the `try`; its outcome is the `llmResponse` parameter: `Except.error`
models a thrown transport error (network failure, timeout),
`Except.ok r` a returned response text `r`.  The `productDescription`,
`merchantName` and `existingProductCode` arguments of the TypeScript
function only shape the prompt string sent to the model and cannot
influence the result beyond the response text, so they are not modelled;
`existingBrand` is kept because the `catch` branch reads it.  Every
exception raised by `JSON.parse` or `EnrichmentSchema.parse` is caught
by the same `catch`, so the function itself never throws. -/
def enrichReceiptData (llmResponse : Except Unit String) (existingBrand : JsVal) :
    EnrichmentResult :=
  match llmResponse with
  | .error _ => enrichmentFallback existingBrand
  | .ok response =>
    match Json.parse (extractJson response) with
    | none => enrichmentFallback existingBrand
    | some parsed =>
      match parseEnrichment parsed with
      | none => enrichmentFallback existingBrand
      | some result => result

/-- JavaScript regex word character (`\w`, i.e. `[A-Za-z0-9_]`). -/
def isWordChar (c : Char) : Bool := c.isAlphanum || c = '_'

/-- Does the string end in a word character?  Used to evaluate the `\b`
word boundary sitting between a prefix and a following word character:
the boundary holds iff the prefix is empty or ends in a non-word
character. -/
def lastCharIsWord (s : String) : Bool :=
  match s.toList.getLast? with
  | some c => isWordChar c
  | none => false

/-- List-level `endsWith` (kernel-evaluable, unlike the position-based
`String.endsWith`). -/
def strEndsWith (s suffix : String) : Bool :=
  let a := s.toList
  let b := suffix.toList
  decide (b.length ≤ a.length) && a.drop (a.length - b.length) == b

/-- List-level `startsWith`. -/
def strStartsWith (s pre : String) : Bool :=
  s.toList.take pre.toList.length == pre.toList

/-- Drop the last `n` characters. -/
def strDropRight (s : String) (n : Nat) : String :=
  String.mk (s.toList.take (s.toList.length - n))

/-- `String.prototype.toLowerCase` (character-wise; the data reaching it
in this code is ASCII). -/
def strToLower (s : String) : String := String.mk (s.toList.map Char.toLower)

/-- `replace(/\.com$/, '')`: strip one trailing `.com`. -/
def stripDotComSuffix (s : String) : String :=
  if strEndsWith s ".com" then strDropRight s 4 else s

/-- Strip an end-anchored word-boundary alternation such as
`\binc\.?$` or `\bcorp(oration)?\.?$`: the candidate suffixes are listed
in the order the greedy regex prefers them (longest first); at most one
can be the actual suffix, and it is removed only when the `\b` before it
holds.  When the boundary fails no shorter candidate can match (it would
not reach the end anchor), exactly as in the regex. -/
def stripAnyWordSuffix (s : String) : List String → String
  | [] => s
  | w :: ws =>
    if strEndsWith s w then
      let r := strDropRight s w.toList.length
      if lastCharIsWord r then s else r
    else stripAnyWordSuffix s ws

/-- One pass of `replace(/\s+/g, ' ')`: each maximal whitespace run
becomes a single space. -/
def collapseWsAux : List Char → Bool → List Char
  | [], _ => []
  | c :: rest, prevWs =>
    if jsWsChar c then
      if prevWs then collapseWsAux rest true
      else ' ' :: collapseWsAux rest true
    else c :: collapseWsAux rest false

/-- `replace(/\s+/g, ' ')`. -/
def collapseWs (s : String) : String := String.mk (collapseWsAux s.toList false)

/-- JavaScript `String.prototype.trim` (on the ASCII whitespace actually
occurring in this code's data). -/
def jsTrim (s : String) : String :=
  String.mk (((s.toList.dropWhile jsWsChar).reverse.dropWhile jsWsChar).reverse)

/-- `word.charAt(0).toUpperCase() + word.slice(1)`. -/
def capitalizeWord (w : String) : String :=
  match w.toList with
  | [] => ""
  | c :: rest => String.mk (c.toUpper :: rest)

/-- `String.prototype.split(' ')`: split on every single space, keeping
empty pieces. -/
def splitOnSpaceAux : List Char → List Char → List String
  | [], acc => [String.mk acc.reverse]
  | c :: rest, acc =>
    if c = ' ' then String.mk acc.reverse :: splitOnSpaceAux rest []
    else splitOnSpaceAux rest (c :: acc)

/-- `String.prototype.split(' ')`. -/
def splitOnSpace (s : String) : List String := splitOnSpaceAux s.toList []

/-- `Array.prototype.join(' ')`. -/
def joinSpace : List String → String
  | [] => ""
  | [w] => w
  | w :: rest => w ++ " " ++ joinSpace rest

/-- `.split(' ').map(capitalize).join(' ')`. -/
def titleCaseWords (s : String) : String :=
  joinSpace ((splitOnSpace s).map capitalizeWord)

/-- The static alias table of `standardizeBrand` (exact full-string
matches on the trimmed, lower-cased input). -/
def brandMappings : List (String × String) :=
  [("apple", "Apple"),
   ("apple inc", "Apple"),
   ("apple inc.", "Apple"),
   ("amazon", "Amazon"),
   ("amazon.com", "Amazon"),
   ("amazon inc", "Amazon"),
   ("google", "Google"),
   ("google llc", "Google"),
   ("google inc", "Google"),
   ("google inc.", "Google"),
   ("microsoft", "Microsoft"),
   ("microsoft corp", "Microsoft"),
   ("microsoft corporation", "Microsoft")]

/-- The generic suffix-stripping and title-casing pipeline applied to
brands absent from the alias table: strip one trailing `.com`, then the
end-anchored corporate suffixes `\binc\.?$`, `\bllc\.?$`,
`\bcorp(oration)?\.?$` in that order, collapse whitespace, trim, then
capitalize the first character of each space-delimited token. -/
def basicStandardize (s : String) : String :=
  titleCaseWords (jsTrim (collapseWs
    (stripAnyWordSuffix
      (stripAnyWordSuffix
        (stripAnyWordSuffix (stripDotComSuffix s) ["inc.", "inc"])
        ["llc.", "llc"])
      ["corporation.", "corporation", "corp.", "corp"])))

/-- Model of `standardizeBrand` (src/services/enrichment.ts lines
138–179).  `none` models both `null` and `undefined` inputs — the code
maps both to `null` — while the empty string maps to the empty string;
a string of pure whitespace is returned trimmed (i.e. as `""`).  Alias
lookup values are all truthy, so the JS truthiness test on the table hit
is the `Option` match. -/
def standardizeBrand (brand : Option String) : Option String :=
  match brand with
  | none => none
  | some b =>
    if b = "" then some ""
    else
      let trimmed := jsTrim b
      if trimmed = "" then some trimmed
      else
        let normalized := strToLower trimmed
        match (brandMappings.find? (fun p => p.1 == normalized)).map (fun p => p.2) with
        | some v => some v
        | none => some (basicStandardize normalized)

/-- Model of `parseProductCategory` (src/services/enrichment.ts lines
181–206): null/undefined propagate; arrays are returned as a defensive
copy (identity under value semantics); a non-empty string whose trimmed
form starts with `[` or `{` is JSON-parsed, the original string being
retained when the parse throws; anything else passes through. -/
def parseProductCategory (category : JsVal) : JsVal :=
  match category with
  | some (.str s) =>
    if s = "" then some (.str s)
    else if strStartsWith (jsTrim s) "[" || strStartsWith (jsTrim s) (String.mk [lbraceChar]) then
      match Json.parse s with
      | some j => some j
      | none => some (.str s)
    else some (.str s)
  | other => other

/-- Model of the inline category parsing of the `POST /receipt` handler
(src/server.ts lines 51–58): only a string value that starts with `[`
(no trimming) is JSON-parsed; on parse failure the string is kept. -/
def routeParseCategory (v : JsVal) : JsVal :=
  match v with
  | some (.str s) =>
    if strStartsWith s "[" then
      match Json.parse s with
      | some j => some j
      | none => some (.str s)
    else some (.str s)
  | other => other

/-- `Array.isArray(v) && v.length === 0`. -/
def isEmptyArrayVal : JsVal → Bool
  | some (.arr xs) => xs.isEmpty
  | _ => false

/-- `typeof v === 'string' && !v.trim()`. -/
def isBlankStringVal : JsVal → Bool
  | some (.str s) => jsTrim s == ""
  | _ => false

/-- Model of the `needsEnrichment` condition of the `POST /receipt`
handler (src/server.ts lines 62–68), evaluated on the extracted
`productDescription` and `brand` values and on the category value after
the inline JSON parsing. -/
def needsEnrichment (productDescription brand productCategory : JsVal)
    (forceEnrichment : Bool) : Bool :=
  productDescription.truthy &&
    (forceEnrichment || !brand.truthy || !productCategory.truthy ||
      isEmptyArrayVal productCategory || isBlankStringVal productCategory)

/-- Model of the brand reconciliation (src/server.ts lines 84–91):
starting from the caller-supplied brand, when an enrichment result is
present and (the brand is falsy or the confidence is high), the enriched
brand is adopted unless it is the `"unknown"` sentinel. -/
def finalBrand (brand : JsVal) (enrichmentResult : Option EnrichmentResult) : JsVal :=
  match enrichmentResult with
  | none => brand
  | some er =>
    if !brand.truthy || er.confidence == .high then
      if er.brand != "unknown" then some (.str er.brand) else brand
    else brand

/-- Model of the category reconciliation (src/server.ts lines 93–101):
when an enrichment result is present and (the category is missing/empty
or the confidence is high), the enriched category is adopted unless it
is empty or its first element is the `"unknown"` sentinel. -/
def finalCategory (productCategory : JsVal) (enrichmentResult : Option EnrichmentResult) :
    JsVal :=
  match enrichmentResult with
  | none => productCategory
  | some er =>
    if (!productCategory.truthy || isEmptyArrayVal productCategory ||
        isBlankStringVal productCategory) || er.confidence == .high then
      if er.category.length != 0 && er.category.headD "" != "unknown" then
        some (.arr (er.category.map Json.str))
      else productCategory
    else productCategory

/-- JavaScript number: NaN, signed infinities, or a finite value
(modelled by its exact decimal rational). -/
inductive JsNumber where
  | nan
  | posInf
  | negInf
  | finite (q : Rat)
deriving DecidableEq, Repr

/-- Model of the JavaScript `parseFloat` on strings: skip leading
whitespace, take an optional sign, accept `Infinity`, otherwise read the
longest prefix `digits [. digits] [e|E [sign] digits]` (at least one
digit required overall, exponent consumed only when it has a digit) and
ignore everything after it; return NaN when no numeric prefix exists. -/
def parseFloatStr (s : String) : JsNumber :=
  let cs := s.toList.dropWhile jsWsChar
  let signed := match cs with
    | '-' :: r => (true, r)
    | '+' :: r => (false, r)
    | _ => (false, cs)
  let neg := signed.1
  let cs1 := signed.2
  if cs1.take 8 = ['I', 'n', 'f', 'i', 'n', 'i', 't', 'y'] then
    if neg then .negInf else .posInf
  else
    let intDs := cs1.takeWhile isDigitChar
    let cs2 := cs1.drop intDs.length
    let fr := match cs2 with
      | '.' :: r => r.takeWhile isDigitChar
      | _ => []
    if intDs.isEmpty && fr.isEmpty then .nan
    else
      let cs3 := match cs2 with
        | '.' :: r => r.drop fr.length
        | _ => cs2
      let ex : Int := match cs3 with
        | e :: r =>
          if e = 'e' || e = 'E' then
            match r with
            | '-' :: r2 =>
              let eds := r2.takeWhile isDigitChar
              if eds.isEmpty then 0 else -(digitsToNat eds : Int)
            | '+' :: r2 =>
              let eds := r2.takeWhile isDigitChar
              if eds.isEmpty then 0 else (digitsToNat eds : Int)
            | _ =>
              let eds := r.takeWhile isDigitChar
              if eds.isEmpty then 0 else (digitsToNat eds : Int)
          else 0
        | [] => 0
      .finite (ratOfParts neg (digitsToNat (intDs ++ fr)) fr.length ex)

/-- `parseFloat(v)` on a JavaScript value: the argument is first coerced
to a string (`String(undefined) = "undefined"`, `String(null) = "null"`,
booleans to `"true"`/`"false"` — all of which parse to NaN); for a
number, `String(n)` is by construction a decimal that `parseFloat` reads
back to the same value.  Arrays/objects cannot reach this call: the
validation schema types the price as `string | number | null |
undefined`, and every theorem below constrains the price values to those
shapes. -/
def jsParseFloat (v : JsVal) : JsNumber :=
  match v with
  | none => .nan
  | some .null => .nan
  | some (.bool _) => .nan
  | some (.str s) => parseFloatStr s
  | some (.num q) => .finite q
  | some (.arr _) => .nan
  | some (.obj _) => .nan

/-- Model of `const totalPricePaid = parseFloat(receiptData.total_price_paid
|| receiptData.TOTAL_PRICE_PAID || '0');` (src/server.ts line 81). -/
def totalPricePaidVal (lc uc : JsVal) : JsNumber :=
  jsParseFloat (jsOr (jsOr lc uc) (some (.str "0")))

/-- `isNaN(x) ? null : x` (src/server.ts line 114). -/
def nanToNull (x : JsNumber) : Option JsNumber :=
  match x with
  | .nan => none
  | x => some x

/-- A JavaScript request body (`req.body` after `express.json()` and the
zod validation middleware), modelled by its property-read behaviour: the
handler only ever reads properties, and a key that is absent reads as
`undefined` (`none`). -/
abbrev JsObject := String → JsVal

/-- The pervasive extraction idiom of the handler:
`receiptData.lower_case || receiptData.UPPER_CASE`. -/
def extractEither (body : JsObject) (lc uc : String) : JsVal :=
  jsOr (body lc) (body uc)

/-- `v ? some v : none`, for the timestamp field
`(x || X) ? new Date(x || X) : null`: the `Date` object is modelled by
the value it was constructed from. -/
def truthyOrNull (v : JsVal) : Option JsVal :=
  if v.truthy then some v else none

/-- The brand value handed to `standardizeBrand`: on this path the
validation schema types it as `string | null | undefined`, and both
`null` and `undefined` are mapped by `standardizeBrand` to `null`. -/
def jsValToOptString (v : JsVal) : Option String :=
  match v with
  | some (.str s) => some s
  | _ => none

/-- `x || null` on an optional string (`enrichmentResult?.upc || null`
and friends): an empty string is falsy and becomes `null`. -/
def orNullStr (v : Option String) : Option String :=
  match v with
  | some s => if s = "" then none else some s
  | none => none

/-- The `insertData` record assembled by the `POST /receipt` handler
(src/server.ts lines 105–127), i.e. the normalized/persisted receipt
row handed to the persistence layer. -/
structure InsertData where
  receiptId : JsVal
  productId : JsVal
  receiptCreatedTimestamp : Option JsVal
  merchantName : JsVal
  productDescription : JsVal
  brand : JsVal
  productCategory : JsVal
  totalPricePaid : Option JsNumber
  productCode : JsVal
  productImageUrl : JsVal
  enrichedBrand : Option String
  enrichedCategory : Option (List String)
  enrichedUpc : Option String
  enrichedSize : Option String
  enrichedColor : Option String
  enrichedMaterial : Option String
  enrichedModel : Option String
  enrichedWeight : Option String
  enrichmentConfidence : Option Confidence
deriving Repr

/-- Model of the body of the `POST /receipt` handler (src/server.ts
lines 37–127), from field extraction to the assembled `insertData`
record.  `forceEnrichment` is `req.query.enrich === 'true'`;
`llmResponse` is the outcome of the external `generateLLMText` call that
`enrichReceiptData` performs if and only if `needsEnrichment` holds
(the prompt-only arguments `productDescription`, `merchantName`,
`productCode` are extracted but do not influence the result beyond the
response text).  `enrichmentConfidence` uses `Option.map` for
`enrichmentResult?.confidence || null` because the three confidence
strings are all truthy. -/
def processReceipt (body : JsObject) (forceEnrichment : Bool)
    (llmResponse : Except Unit String) : InsertData :=
  let productDescription := extractEither body "product_description" "PRODUCT_DESCRIPTION"
  let merchantName := extractEither body "merchant_name" "MERCHANT_NAME"
  let brand := extractEither body "brand" "BRAND"
  let productCategory :=
    routeParseCategory (extractEither body "product_category" "PRODUCT_CATEGORY")
  let enrichmentResult : Option EnrichmentResult :=
    if needsEnrichment productDescription brand productCategory forceEnrichment then
      some (enrichReceiptData llmResponse brand)
    else none
  let totalPricePaid :=
    totalPricePaidVal (body "total_price_paid") (body "TOTAL_PRICE_PAID")
  { receiptId := extractEither body "receipt_id" "RECEIPT_ID"
    productId := extractEither body "product_id" "PRODUCT_ID"
    receiptCreatedTimestamp :=
      truthyOrNull (extractEither body "receipt_created_timestamp" "RECEIPT_CREATED_TIMESTAMP")
    merchantName := merchantName
    productDescription := productDescription
    brand := finalBrand brand enrichmentResult
    productCategory := finalCategory productCategory enrichmentResult
    totalPricePaid := nanToNull totalPricePaid
    productCode := extractEither body "product_code" "PRODUCT_CODE"
    productImageUrl := extractEither body "product_image_url" "PRODUCT_IMAGE_URL"
    enrichedBrand := match enrichmentResult with
      | some er => standardizeBrand (some er.brand)
      | none => standardizeBrand (jsValToOptString brand)
    enrichedCategory := enrichmentResult.map (fun er => er.category)
    enrichedUpc := match enrichmentResult with
      | some er => orNullStr er.upc
      | none => none
    enrichedSize := match enrichmentResult with
      | some er => orNullStr er.size
      | none => none
    enrichedColor := match enrichmentResult with
      | some er => orNullStr er.color
      | none => none
    enrichedMaterial := match enrichmentResult with
      | some er => orNullStr er.material
      | none => none
    enrichedModel := match enrichmentResult with
      | some er => orNullStr er.model
      | none => none
    enrichedWeight := match enrichmentResult with
      | some er => orNullStr er.weight
      | none => none
    enrichmentConfidence := enrichmentResult.map (fun er => er.confidence) }

/-- Value shape admitted by the request-validation schema for the
string-typed fields (`z.string().optional().nullable()`): absent, null,
or a string. -/
def StrOrNullShape (v : JsVal) : Prop :=
  v = none ∨ v = some Json.null ∨ ∃ s, v = some (Json.str s)

/-- Value shape of the category after validation
(`z.union([z.array(z.string()), z.string()]).optional().nullable()`) and
the handler's inline JSON parsing (which can only turn a `[`-headed
string into an array): absent, null, a string, or an array. -/
def CatShape (v : JsVal) : Prop :=
  v = none ∨ v = some Json.null ∨ (∃ s, v = some (Json.str s)) ∨
    ∃ xs, v = some (Json.arr xs)

/-- The spec's "a product description is present": a non-empty string. -/
def descPresent (v : JsVal) : Prop := ∃ s, v = some (Json.str s) ∧ s ≠ ""

/-- The spec's "brand is missing": absent, null, or the empty string
(the three falsy values a validated brand can take). -/
def brandMissing (v : JsVal) : Prop :=
  v = none ∨ v = some Json.null ∨ v = some (Json.str "")

/-- The spec's "category is missing/empty": absent/null, an empty
array, or a string that is empty or whitespace-only. -/
def catMissingOrEmpty (v : JsVal) : Prop :=
  v = none ∨ v = some Json.null ∨ v = some (Json.arr []) ∨
    ∃ s, v = some (Json.str s) ∧ jsTrim s = ""

/-- Convenience builder for enrichment results whose detail fields are
all null. -/
def mkEnrichment (b : String) (cat : List String) (conf : Confidence) :
    EnrichmentResult :=
  { brand := b, category := cat, upc := none, size := none, color := none,
    material := none, model := none, weight := none, confidence := conf }

/-- A syntactically valid enrichment response whose `category` is the
empty array. -/
def emptyCatResponse : String :=
  "\x7b\"brand\":\"b\",\"category\":[],\"upc\":null,\"size\":null,\"color\":null,\"material\":null,\"model\":null,\"weight\":null,\"confidence\":\"high\"\x7d"

/-- A request body whose only key is the mixed-case `Receipt_Id`. -/
def mixedCaseBody : JsObject :=
  fun k => if k = "Receipt_Id" then some (Json.str "R1") else none

/-- The same logical record under the canonical lowercase key. -/
def lowerCaseBody : JsObject :=
  fun k => if k = "receipt_id" then some (Json.str "R1") else none

/-- A logical receipt record: one value per canonical field, `none`
meaning the field is not supplied. -/
structure LogicalReceipt where
  receipt_id : JsVal
  product_id : JsVal
  receipt_created_timestamp : JsVal
  merchant_name : JsVal
  product_description : JsVal
  brand : JsVal
  product_category : JsVal
  total_price_paid : JsVal
  product_code : JsVal
  product_image_url : JsVal

/-- The logical record rendered with all-lowercase keys. -/
def lowerBodyOf (L : LogicalReceipt) : JsObject := fun k =>
  if k = "receipt_id" then L.receipt_id
  else if k = "product_id" then L.product_id
  else if k = "receipt_created_timestamp" then L.receipt_created_timestamp
  else if k = "merchant_name" then L.merchant_name
  else if k = "product_description" then L.product_description
  else if k = "brand" then L.brand
  else if k = "product_category" then L.product_category
  else if k = "total_price_paid" then L.total_price_paid
  else if k = "product_code" then L.product_code
  else if k = "product_image_url" then L.product_image_url
  else none

/-- The logical record rendered with all-uppercase keys. -/
def upperBodyOf (L : LogicalReceipt) : JsObject := fun k =>
  if k = "RECEIPT_ID" then L.receipt_id
  else if k = "PRODUCT_ID" then L.product_id
  else if k = "RECEIPT_CREATED_TIMESTAMP" then L.receipt_created_timestamp
  else if k = "MERCHANT_NAME" then L.merchant_name
  else if k = "PRODUCT_DESCRIPTION" then L.product_description
  else if k = "BRAND" then L.brand
  else if k = "PRODUCT_CATEGORY" then L.product_category
  else if k = "TOTAL_PRICE_PAID" then L.total_price_paid
  else if k = "PRODUCT_CODE" then L.product_code
  else if k = "PRODUCT_IMAGE_URL" then L.product_image_url
  else none

/-- A field value that is either not supplied or truthy.  (For falsy
supplied values such as `""` the two casings genuinely disagree, because
`x || X` skips a falsy lowercase value.) -/
def SuppliedTruthy (v : JsVal) : Prop := v = none ∨ v.truthy = true

/-- All ten fields of the logical record are absent-or-truthy. -/
def AllSuppliedTruthy (L : LogicalReceipt) : Prop :=
  SuppliedTruthy L.receipt_id ∧ SuppliedTruthy L.product_id ∧
  SuppliedTruthy L.receipt_created_timestamp ∧ SuppliedTruthy L.merchant_name ∧
  SuppliedTruthy L.product_description ∧ SuppliedTruthy L.brand ∧
  SuppliedTruthy L.product_category ∧ SuppliedTruthy L.total_price_paid ∧
  SuppliedTruthy L.product_code ∧ SuppliedTruthy L.product_image_url

/-- A sample logical record with truthy supplied values. -/
def sampleLogical : LogicalReceipt :=
  { receipt_id := some (Json.str "R1"), product_id := none,
    receipt_created_timestamp := none, merchant_name := some (Json.str "Store"),
    product_description := some (Json.str "iPhone 15 Pro"), brand := none,
    product_category := none, total_price_paid := some (Json.str "99.99"),
    product_code := none, product_image_url := none }

theorem truthy_iff_descPresent (v : JsVal) (h : StrOrNullShape v) :
    v.truthy = true ↔ descPresent v := by
  rcases h with h | h | ⟨s, h⟩ <;> subst h <;>
    simp [JsVal.truthy, Json.truthy, descPresent]

theorem not_truthy_iff_brandMissing (v : JsVal) (h : StrOrNullShape v) :
    v.truthy = false ↔ brandMissing v := by
  rcases h with h | h | ⟨s, h⟩ <;> subst h <;>
    simp [JsVal.truthy, Json.truthy, brandMissing]

theorem catMissing_boolean_iff (v : JsVal) (h : CatShape v) :
    (v.truthy = false ∨ isEmptyArrayVal v = true ∨ isBlankStringVal v = true) ↔
      catMissingOrEmpty v := by
  rcases h with h | h | ⟨s, h⟩ | ⟨xs, h⟩ <;> subst h
  · simp [JsVal.truthy, isEmptyArrayVal, isBlankStringVal, catMissingOrEmpty]
  · simp [JsVal.truthy, Json.truthy, isEmptyArrayVal, isBlankStringVal, catMissingOrEmpty]
  · by_cases hs : s = ""
    · subst hs
      simp [JsVal.truthy, Json.truthy, isEmptyArrayVal, isBlankStringVal,
        catMissingOrEmpty]
      rfl
    · simp [JsVal.truthy, Json.truthy, isEmptyArrayVal, isBlankStringVal,
        catMissingOrEmpty, hs]
  · simp [JsVal.truthy, Json.truthy, isEmptyArrayVal, isBlankStringVal,
      catMissingOrEmpty, List.isEmpty_iff]

/-- C5: `standardizeBrand` satisfies the literal cases of the spec's
brand-standardization table — `"amazon.com" ↦ "Amazon"` (alias table),
`"amazon inc.com" ↦ "Amazon"` (`.com` stripped first, exposing `inc`),
`"amazon.com inc" ↦ "Amazon.com"` (`inc` stripped at the true end, the
interior `.com` survives), `"" ↦ ""`, `null/undefined ↦ null` — and the
null and empty-string results are distinguished. -/
theorem standardizeBrand_literal_table :
    standardizeBrand (some "amazon.com") = some "Amazon" ∧
    standardizeBrand (some "amazon inc.com") = some "Amazon" ∧
    standardizeBrand (some "amazon.com inc") = some "Amazon.com" ∧
    standardizeBrand (some "") = some "" ∧
    standardizeBrand none = none ∧
    standardizeBrand (some "") ≠ standardizeBrand none := by
  refine ⟨rfl, rfl, rfl, rfl, rfl, ?_⟩
  intro h
  have h2 : (some "" : Option String) = none := h
  cases h2

/-- C1: whenever the text-generation call fails (`Except.error`), or the
extracted response is not parseable JSON, or the parsed JSON fails the
schema validation, `enrichReceiptData` returns (never throws) the
degraded result: brand = the existing brand when a non-empty one was
supplied and `"unknown"` otherwise, category = `["unknown"]`, all six
detail fields null, confidence low.  Totality of `enrichReceiptData` —
ingestion can never fail because of enrichment — is by construction. -/
theorem enrichReceiptData_failure_fallback (llm : Except Unit String) (eb : JsVal)
    (hfail : llm = .error () ∨
      ∃ r, llm = .ok r ∧ (Json.parse (extractJson r)).bind parseEnrichment = none)
    (heb : StrOrNullShape eb) :
    (enrichReceiptData llm eb).category = ["unknown"] ∧
    (enrichReceiptData llm eb).upc = none ∧
    (enrichReceiptData llm eb).size = none ∧
    (enrichReceiptData llm eb).color = none ∧
    (enrichReceiptData llm eb).material = none ∧
    (enrichReceiptData llm eb).model = none ∧
    (enrichReceiptData llm eb).weight = none ∧
    (enrichReceiptData llm eb).confidence = .low ∧
    (∀ s, eb = some (Json.str s) → s ≠ "" → (enrichReceiptData llm eb).brand = s) ∧
    (brandMissing eb → (enrichReceiptData llm eb).brand = "unknown") := by
  have hfb : enrichReceiptData llm eb = enrichmentFallback eb := by
    rcases hfail with heq | ⟨r, heq, hbind⟩
    · subst heq; rfl
    · subst heq
      cases hp : Json.parse (extractJson r) with
      | none => simp [enrichReceiptData, hp]
      | some j =>
        have hpe : parseEnrichment j = none := by simpa [hp] using hbind
        simp [enrichReceiptData, hp, hpe]
  rw [hfb]
  refine ⟨rfl, rfl, rfl, rfl, rfl, rfl, rfl, rfl, ?_, ?_⟩
  · intro s hs hne
    subst hs
    simp [enrichmentFallback, jsOrUnknown, hne]
  · intro hm
    rcases hm with hm | hm | hm <;> subst hm <;> rfl

theorem enrichReceiptData_failure_fallback_witness :
    ((Except.ok "oops" : Except Unit String) = .error () ∨
      ∃ r, (Except.ok "oops" : Except Unit String) = .ok r ∧
        (Json.parse (extractJson r)).bind parseEnrichment = none) ∧
    StrOrNullShape (some (Json.str "Apple")) ∧
    (enrichReceiptData (.ok "oops") (some (Json.str "Apple"))).brand = "Apple" ∧
    (enrichReceiptData (.ok "oops") (some (Json.str "Apple"))).confidence = .low := by
  have hfail : (Except.ok "oops" : Except Unit String) = .error () ∨
      ∃ r, (Except.ok "oops" : Except Unit String) = .ok r ∧
        (Json.parse (extractJson r)).bind parseEnrichment = none :=
    Or.inr ⟨"oops", rfl, rfl⟩
  have hshape : StrOrNullShape (some (Json.str "Apple")) :=
    Or.inr (Or.inr ⟨"Apple", rfl⟩)
  have h := enrichReceiptData_failure_fallback (.ok "oops") (some (Json.str "Apple"))
    hfail hshape
  exact ⟨hfail, hshape,
    h.2.2.2.2.2.2.2.2.1 "Apple" rfl (by simp), h.2.2.2.2.2.2.2.1⟩

/-- C9 counterexample: the zod schema is `category: z.array(z.string())`
— it does NOT require non-emptiness, so a response with `category: []`
passes validation and is returned as-is (here with confidence `high`),
which is not treated identically to a transport failure (whose fallback
has confidence `low`). -/
theorem empty_category_passes_schema_cex :
    enrichReceiptData (.ok emptyCatResponse) none = mkEnrichment "b" [] .high ∧
    (enrichReceiptData (.ok emptyCatResponse) none).confidence = .high ∧
    enrichReceiptData (.ok emptyCatResponse) none ≠
      enrichReceiptData (.error ()) none ∧
    (enrichReceiptData (.error ()) none).confidence = .low := by
  refine ⟨rfl, rfl, ?_, rfl⟩
  intro h
  have h2 : Confidence.high = Confidence.low :=
    congrArg EnrichmentResult.confidence h
  cases h2

theorem zodStringArray_map_str (xs : List String) :
    zodStringArray (Json.arr (xs.map Json.str)) = some xs := by
  induction xs with
  | nil => rfl
  | cons x t ih =>
    simp [zodStringArray, mapZodString, zodString] at ih ⊢
    simp [ih]

/-- C9 amended: the Enrichment Client response is validated against
brand : string, category : (possibly empty) sequence of strings,
upc/size/color/material/model/weight : string-or-null, confidence ∈
{high, medium, low}; a response failing this validation is treated
identically to a transport failure (degraded fallback), but a response
whose category is the *empty* sequence passes validation and is returned
unchanged. -/
theorem enrichment_schema_validation_spec :
    (∀ (s : String) (eb : JsVal) (j : Json),
      Json.parse (extractJson s) = some j → parseEnrichment j = none →
      enrichReceiptData (.ok s) eb = enrichmentFallback eb) ∧
    (∀ (b : String) (xs : List String),
      parseEnrichment (Json.obj
        [("brand", Json.str b), ("category", Json.arr (xs.map Json.str)),
         ("upc", Json.null), ("size", Json.null), ("color", Json.null),
         ("material", Json.null), ("model", Json.null), ("weight", Json.null),
         ("confidence", Json.str "high")]) = some (mkEnrichment b xs .high)) := by
  constructor
  · intro s eb j hp hpe
    simp [enrichReceiptData, hp, hpe]
  · intro b xs
    simp [parseEnrichment, objGet, zodString, zodNullableString, zodConfidence,
      zodStringArray_map_str, mkEnrichment]

theorem enrichment_schema_validation_spec_witness :
    Json.parse (extractJson "\x7b\"brand\":42\x7d") = some
      (Json.obj [("brand", Json.num 42)]) ∧
    parseEnrichment (Json.obj [("brand", Json.num 42)]) = none ∧
    enrichReceiptData (.ok "\x7b\"brand\":42\x7d") none = enrichmentFallback none := by
  refine ⟨rfl, rfl, ?_⟩
  exact enrichment_schema_validation_spec.1 "\x7b\"brand\":42\x7d" none
    (Json.obj [("brand", Json.num 42)]) rfl rfl

/-- C2: during ingestion, the Enrichment Client is invoked iff a product
description is present (non-empty string) AND (forceEnrichment is true,
or the brand is missing — absent/null/empty —, or the category (after
the inline JSON parsing) is missing or empty: absent/null, an empty
array, or an empty/whitespace-only string).  In particular, with no
product description enrichment is never invoked even under
forceEnrichment.  The second conjunct ties the invocation to the
pipeline: the persisted `enrichmentConfidence` marker is set iff
`needsEnrichment` held. -/
theorem needsEnrichment_iff_spec :
    (∀ (pd brand cat : JsVal) (force : Bool),
      StrOrNullShape pd → StrOrNullShape brand → CatShape cat →
      ((needsEnrichment pd brand cat force = true ↔
        descPresent pd ∧
          (force = true ∨ brandMissing brand ∨ catMissingOrEmpty cat)) ∧
       (¬ descPresent pd → needsEnrichment pd brand cat force = false))) ∧
    (∀ (body : JsObject) (force : Bool) (llm : Except Unit String),
      (processReceipt body force llm).enrichmentConfidence ≠ none ↔
        needsEnrichment
          (extractEither body "product_description" "PRODUCT_DESCRIPTION")
          (extractEither body "brand" "BRAND")
          (routeParseCategory (extractEither body "product_category" "PRODUCT_CATEGORY"))
          force = true) := by
  constructor
  · intro pd brand cat force hpd hb hc
    have hd := truthy_iff_descPresent pd hpd
    have hbm := not_truthy_iff_brandMissing brand hb
    have hcm := catMissing_boolean_iff cat hc
    constructor
    · simp only [needsEnrichment, Bool.and_eq_true, Bool.or_eq_true,
        Bool.not_eq_true', or_assoc]
      rw [hd]
      constructor
      · rintro ⟨h1, h2⟩
        refine ⟨h1, ?_⟩
        rcases h2 with h2 | h2 | h2 | h2 | h2
        · exact Or.inl h2
        · exact Or.inr (Or.inl (hbm.mp h2))
        · exact Or.inr (Or.inr (hcm.mp (Or.inl h2)))
        · exact Or.inr (Or.inr (hcm.mp (Or.inr (Or.inl h2))))
        · exact Or.inr (Or.inr (hcm.mp (Or.inr (Or.inr h2))))
      · rintro ⟨h1, h2⟩
        refine ⟨h1, ?_⟩
        rcases h2 with h2 | h2 | h2
        · exact Or.inl h2
        · exact Or.inr (Or.inl (hbm.mpr h2))
        · rcases hcm.mpr h2 with h3 | h3 | h3
          · exact Or.inr (Or.inr (Or.inl h3))
          · exact Or.inr (Or.inr (Or.inr (Or.inl h3)))
          · exact Or.inr (Or.inr (Or.inr (Or.inr h3)))
    · intro hnd
      have hf : pd.truthy = false := by
        rcases Bool.eq_false_or_eq_true pd.truthy with h' | h'
        · exact absurd (hd.mp h') hnd
        · exact h'
      simp [needsEnrichment, hf]
  · intro body force llm
    rcases Bool.eq_false_or_eq_true (needsEnrichment
        (extractEither body "product_description" "PRODUCT_DESCRIPTION")
        (extractEither body "brand" "BRAND")
        (routeParseCategory (extractEither body "product_category" "PRODUCT_CATEGORY"))
        force) with hne | hne <;>
      simp [processReceipt, hne]

theorem needsEnrichment_iff_spec_witness :
    StrOrNullShape (some (Json.str "iPhone")) ∧ StrOrNullShape (none : JsVal) ∧
    CatShape (none : JsVal) ∧
    needsEnrichment (some (Json.str "iPhone")) none none false = true := by
  have h1 : StrOrNullShape (some (Json.str "iPhone")) := Or.inr (Or.inr ⟨"iPhone", rfl⟩)
  have h2 : StrOrNullShape (none : JsVal) := Or.inl rfl
  have h3 : CatShape (none : JsVal) := Or.inl rfl
  have h := (needsEnrichment_iff_spec.1 (some (Json.str "iPhone")) none none false
    h1 h2 h3).1
  exact ⟨h1, h2, h3,
    h.mpr ⟨⟨"iPhone", rfl, by decide⟩, Or.inr (Or.inl (Or.inl rfl))⟩⟩

/-- C3: with an enrichment result present, the final brand is the
enriched brand exactly when (the existing brand is missing OR the
confidence is high) AND the enriched brand is not the `"unknown"`
sentinel; otherwise the existing (possibly missing) brand is kept.  The
closed conjuncts check the spec's instances: existing `"Apple"` vs
enriched `"Apple Computer"` stays `"Apple"` at medium and becomes
`"Apple Computer"` at high; with no existing brand an enriched
`"unknown"` leaves the brand missing at every confidence. -/
theorem finalBrand_reconciliation_spec :
    (∀ (brand : JsVal) (er : EnrichmentResult), StrOrNullShape brand →
      (((brandMissing brand ∨ er.confidence = .high) ∧ er.brand ≠ "unknown") →
        finalBrand brand (some er) = some (Json.str er.brand)) ∧
      (¬((brandMissing brand ∨ er.confidence = .high) ∧ er.brand ≠ "unknown") →
        finalBrand brand (some er) = brand)) ∧
    finalBrand (some (Json.str "Apple"))
      (some (mkEnrichment "Apple Computer" ["Electronics"] .medium)) =
      some (Json.str "Apple") ∧
    finalBrand (some (Json.str "Apple"))
      (some (mkEnrichment "Apple Computer" ["Electronics"] .high)) =
      some (Json.str "Apple Computer") ∧
    (∀ c : Confidence,
      finalBrand none (some (mkEnrichment "unknown" ["unknown"] c)) = none) := by
  refine ⟨?_, rfl, rfl, ?_⟩
  · intro brand er h
    constructor
    · rintro ⟨hcond, hub⟩
      have h1 : (!brand.truthy || er.confidence == Confidence.high) = true := by
        rcases hcond with hm | hh
        · have hf : brand.truthy = false := (not_truthy_iff_brandMissing brand h).mpr hm
          simp [hf]
        · simp [hh]
      have h2 : (er.brand != "unknown") = true := by simpa using hub
      simp only [finalBrand]
      rw [h1, h2]
      simp
    · intro hneg
      by_cases hob : (!brand.truthy || er.confidence == Confidence.high) = true
      · have hob' : brand.truthy = false ∨ er.confidence = .high := by
          simpa using hob
        have hcond : brandMissing brand ∨ er.confidence = .high :=
          hob'.imp (fun h1 => (not_truthy_iff_brandMissing brand h).mp h1) id
        have hub : er.brand = "unknown" := by
          by_contra hne
          exact hneg ⟨hcond, hne⟩
        simp only [finalBrand]
        rw [hob, hub]
        simp
      · simp only [finalBrand]
        rw [if_neg hob]
  · intro c
    cases c <;> rfl

theorem finalBrand_reconciliation_spec_witness :
    StrOrNullShape (some (Json.str "Apple")) ∧
    finalBrand (some (Json.str "Apple"))
      (some (mkEnrichment "Apple Computer" ["Electronics"] .high)) =
      some (Json.str "Apple Computer") := by
  have hshape : StrOrNullShape (some (Json.str "Apple")) :=
    Or.inr (Or.inr ⟨"Apple", rfl⟩)
  refine ⟨hshape, ?_⟩
  exact (finalBrand_reconciliation_spec.1 (some (Json.str "Apple"))
    (mkEnrichment "Apple Computer" ["Electronics"] .high) hshape).1
    ⟨Or.inr rfl, by decide⟩

/-- C4: with an enrichment result present, the final category is the
enriched category exactly when (the existing category is missing/empty
OR the confidence is high) AND the enriched category is non-empty with
first element different from the `"unknown"` sentinel; otherwise the
existing (possibly missing) category is kept. -/
theorem finalCategory_reconciliation_spec :
    ∀ (cat : JsVal) (er : EnrichmentResult), CatShape cat →
      (((catMissingOrEmpty cat ∨ er.confidence = .high) ∧
          er.category ≠ [] ∧ er.category.headD "" ≠ "unknown") →
        finalCategory cat (some er) = some (Json.arr (er.category.map Json.str))) ∧
      (¬((catMissingOrEmpty cat ∨ er.confidence = .high) ∧
          er.category ≠ [] ∧ er.category.headD "" ≠ "unknown") →
        finalCategory cat (some er) = cat) := by
  intro cat er h
  have hcm := catMissing_boolean_iff cat h
  constructor
  · rintro ⟨hcond, hne, hhd⟩
    have h1 : ((!cat.truthy || isEmptyArrayVal cat || isBlankStringVal cat) ||
        er.confidence == Confidence.high) = true := by
      rcases hcond with hm | hh
      · rcases hcm.mpr hm with h2 | h2 | h2
        · simp [h2]
        · simp [h2]
        · simp [h2]
      · simp [hh]
    have h2 : (er.category.length != 0 && er.category.headD "" != "unknown") = true := by
      rcases hcat : er.category with _ | ⟨a, t⟩
      · exact absurd hcat hne
      · have ha : a ≠ "unknown" := by
          intro hx
          apply hhd
          rw [hcat, hx]
          simp
        simp [ha]
    simp only [finalCategory]
    rw [h1, h2]
    simp
  · intro hneg
    by_cases hob : ((!cat.truthy || isEmptyArrayVal cat || isBlankStringVal cat) ||
        er.confidence == Confidence.high) = true
    · have flat : cat.truthy = false ∨ isEmptyArrayVal cat = true ∨
          isBlankStringVal cat = true ∨ er.confidence = .high := by
        simpa [or_assoc] using hob
      have hcond : catMissingOrEmpty cat ∨ er.confidence = .high := by
        rcases flat with h1 | h1 | h1 | h1
        · exact Or.inl (hcm.mp (Or.inl h1))
        · exact Or.inl (hcm.mp (Or.inr (Or.inl h1)))
        · exact Or.inl (hcm.mp (Or.inr (Or.inr h1)))
        · exact Or.inr h1
      have h2 : (er.category.length != 0 && er.category.headD "" != "unknown") = false := by
        rcases hcat : er.category with _ | ⟨a, t⟩
        · simp
        · have ha : a = "unknown" := by
            by_contra hx
            refine hneg ⟨hcond, ?_, ?_⟩
            · rw [hcat]
              simp
            · rw [hcat]
              simpa using hx
          simp [ha]
      simp only [finalCategory]
      rw [hob, h2]
      simp
    · simp only [finalCategory]
      rw [if_neg hob]

theorem finalCategory_reconciliation_spec_witness :
    CatShape (none : JsVal) ∧
    finalCategory none (some (mkEnrichment "b" ["Electronics"] .low)) =
      some (Json.arr [Json.str "Electronics"]) := by
  have hshape : CatShape (none : JsVal) := Or.inl rfl
  refine ⟨hshape, ?_⟩
  exact (finalCategory_reconciliation_spec none
    (mkEnrichment "b" ["Electronics"] .low) hshape).1
    ⟨Or.inl (Or.inl rfl), by decide, by decide⟩

/-- C7 counterexample: on the ingestion path the category string is
tested with `startsWith('[')` WITHOUT trimming, so the value `" [\"A\"]"`
— whose trimmed form starts with `[` and which parses as JSON — is
retained unchanged instead of being parsed, contradicting the claim that
every string whose trimmed form starts with `[` is parsed. -/
theorem category_untrimmed_bracket_cex :
    strStartsWith (jsTrim " [\"A\"]") "[" = true ∧
    Json.parse " [\"A\"]" = some (Json.arr [Json.str "A"]) ∧
    routeParseCategory (some (Json.str " [\"A\"]")) = some (Json.str " [\"A\"]") ∧
    routeParseCategory (some (Json.str " [\"A\"]")) ≠ some (Json.arr [Json.str "A"]) := by
  refine ⟨rfl, rfl, rfl, ?_⟩
  intro h
  have h2 : (some (Json.str " [\"A\"]") : JsVal) = some (Json.arr [Json.str "A"]) := h
  have h3 := Option.some.inj h2
  exact Json.noConfusion h3

/-- C7 amended: on the ingestion path (src/server.ts lines 51–58) a
category string is JSON-parsed only when it starts with `[` WITHOUT
prior trimming; on parse failure the original string is retained with no
error; non-bracket strings pass through unchanged; and the round-trip
`parse(stringify(['A','B','C'])) = ['A','B','C']` holds, a malformed
bracketed string being returned unchanged.  The helper
`parseProductCategory` (src/services/enrichment.ts lines 181–206) — not
called on the ingestion path — does trim before the bracket test, as the
last two conjuncts state. -/
theorem category_parsing_spec :
    (∀ s : String, strStartsWith s "[" = false →
      routeParseCategory (some (Json.str s)) = some (Json.str s)) ∧
    (∀ s : String, strStartsWith s "[" = true → Json.parse s = none →
      routeParseCategory (some (Json.str s)) = some (Json.str s)) ∧
    (∀ (s : String) (j : Json), strStartsWith s "[" = true → Json.parse s = some j →
      routeParseCategory (some (Json.str s)) = some j) ∧
    routeParseCategory (some (Json.str (stringifyStrArr ["A", "B", "C"]))) =
      some (Json.arr [Json.str "A", Json.str "B", Json.str "C"]) ∧
    routeParseCategory (some (Json.str "[\"A\",\"B\"")) = some (Json.str "[\"A\",\"B\"") ∧
    (∀ (s : String) (j : Json), strStartsWith (jsTrim s) "[" = true →
      Json.parse s = some j → parseProductCategory (some (Json.str s)) = some j) ∧
    (∀ s : String, strStartsWith (jsTrim s) "[" = true → Json.parse s = none →
      parseProductCategory (some (Json.str s)) = some (Json.str s)) := by
  refine ⟨?_, ?_, ?_, rfl, rfl, ?_, ?_⟩
  · intro s hs
    simp [routeParseCategory, hs]
  · intro s hs hp
    simp [routeParseCategory, hs, hp]
  · intro s j hs hp
    simp [routeParseCategory, hs, hp]
  · intro s j hs hp
    have hne : s ≠ "" := by
      intro he
      rw [he] at hs
      exact absurd hs (by decide)
    simp [parseProductCategory, hne, hs, hp]
  · intro s hs hp
    have hne : s ≠ "" := by
      intro he
      rw [he] at hs
      exact absurd hs (by decide)
    simp [parseProductCategory, hne, hs, hp]

theorem category_parsing_spec_witness :
    strStartsWith "plain" "[" = false ∧
    routeParseCategory (some (Json.str "plain")) = some (Json.str "plain") ∧
    strStartsWith (jsTrim " [\"X\"]") "[" = true ∧
    Json.parse " [\"X\"]" = some (Json.arr [Json.str "X"]) ∧
    parseProductCategory (some (Json.str " [\"X\"]")) = some (Json.arr [Json.str "X"]) := by
  refine ⟨rfl, ?_, rfl, rfl, ?_⟩
  · exact category_parsing_spec.1 "plain" rfl
  · exact category_parsing_spec.2.2.2.2.2.1 " [\"X\"]" (Json.arr [Json.str "X"]) rfl rfl

theorem jsOr_of_truthy (a b : JsVal) (h : a.truthy = true) : jsOr a b = a := by
  unfold jsOr
  rw [h]
  simp

theorem jsOr_of_falsy (a b : JsVal) (h : a.truthy = false) : jsOr a b = b := by
  unfold jsOr
  rw [h]
  simp

theorem jsOr_none_left (b : JsVal) : jsOr none b = b := rfl

/-- C8: the numeric string `"99.99"` and the native number `99.99`
coerce to the same persisted price; a supplied (truthy) price value
whose `parseFloat` conversion yields NaN is persisted as null —
regardless of whether it was supplied under the lowercase or the
uppercase key — never as `0` and never as NaN (the persisted field can
never hold NaN by the last conjunct).  (A falsy supplied value such as
the empty string is replaced by the default string `'0'` before parsing
— that case is the subject of the C10 theorem.) -/
theorem price_coercion_spec :
    totalPricePaidVal (some (Json.str "99.99")) none =
      totalPricePaidVal (some (Json.num (Rat.divInt 9999 100))) none ∧
    nanToNull (totalPricePaidVal (some (Json.str "99.99")) none) =
      some (.finite (Rat.divInt 9999 100)) ∧
    nanToNull (totalPricePaidVal (some (Json.str "not-a-number")) none) = none ∧
    (∀ v : JsVal, v.truthy = true → jsParseFloat v = .nan →
      nanToNull (totalPricePaidVal v none) = none ∧
      nanToNull (totalPricePaidVal none v) = none) ∧
    (∀ x : JsNumber, nanToNull x ≠ some .nan) := by
  refine ⟨rfl, rfl, rfl, ?_, ?_⟩
  · intro v hv hn
    constructor
    · have he : totalPricePaidVal v none = jsParseFloat v := by
        unfold totalPricePaidVal
        rw [jsOr_of_truthy v none hv, jsOr_of_truthy v (some (Json.str "0")) hv]
      rw [he, hn]
      rfl
    · have he : totalPricePaidVal none v = jsParseFloat v := by
        unfold totalPricePaidVal
        rw [jsOr_none_left v, jsOr_of_truthy v (some (Json.str "0")) hv]
      rw [he, hn]
      rfl
  · intro x
    cases x <;> simp [nanToNull]

theorem price_coercion_spec_witness :
    JsVal.truthy (some (Json.str "abc")) = true ∧
    jsParseFloat (some (Json.str "abc")) = .nan ∧
    nanToNull (totalPricePaidVal (some (Json.str "abc")) none) = none := by
  refine ⟨rfl, rfl, ?_⟩
  exact (price_coercion_spec.2.2.2.1 (some (Json.str "abc")) rfl rfl).1

/-- C10 (implicit): when no total price is supplied at all, or the
supplied value is the empty string (falsy), the persisted price is the
number 0 — not null — because the absent value is defaulted to the
string `'0'` before `parseFloat`; null is persisted only when a truthy
value was supplied whose conversion yields NaN. -/
theorem missing_price_defaults_zero_spec :
    nanToNull (totalPricePaidVal none none) = some (.finite 0) ∧
    nanToNull (totalPricePaidVal (some (Json.str "")) none) = some (.finite 0) ∧
    nanToNull (totalPricePaidVal none (some (Json.str ""))) = some (.finite 0) ∧
    (∀ lc uc : JsVal, nanToNull (totalPricePaidVal lc uc) = none →
      (lc.truthy = true ∧ jsParseFloat lc = .nan) ∨
      (lc.truthy = false ∧ uc.truthy = true ∧ jsParseFloat uc = .nan)) := by
  refine ⟨by decide, by decide, by decide, ?_⟩
  intro lc uc h
  rcases Bool.eq_false_or_eq_true lc.truthy with hl | hl
  · left
    refine ⟨hl, ?_⟩
    have he : totalPricePaidVal lc uc = jsParseFloat lc := by
      unfold totalPricePaidVal
      rw [jsOr_of_truthy lc uc hl, jsOr_of_truthy lc (some (Json.str "0")) hl]
    rw [he] at h
    rcases hx : jsParseFloat lc with _ | _ | _ | q
    · rfl
    · rw [hx] at h
      simp [nanToNull] at h
    · rw [hx] at h
      simp [nanToNull] at h
    · rw [hx] at h
      simp [nanToNull] at h
  · rcases Bool.eq_false_or_eq_true uc.truthy with hu | hu
    · right
      refine ⟨hl, hu, ?_⟩
      have he : totalPricePaidVal lc uc = jsParseFloat uc := by
        unfold totalPricePaidVal
        rw [jsOr_of_falsy lc uc hl, jsOr_of_truthy uc (some (Json.str "0")) hu]
      rw [he] at h
      rcases hx : jsParseFloat uc with _ | _ | _ | q
      · rfl
      · rw [hx] at h
        simp [nanToNull] at h
      · rw [hx] at h
        simp [nanToNull] at h
      · rw [hx] at h
        simp [nanToNull] at h
    · exfalso
      have he : totalPricePaidVal lc uc = jsParseFloat (some (Json.str "0")) := by
        unfold totalPricePaidVal
        rw [jsOr_of_falsy lc uc hl, jsOr_of_falsy uc (some (Json.str "0")) hu]
      rw [he] at h
      exact absurd h (by decide)

theorem missing_price_defaults_zero_spec_witness :
    nanToNull (totalPricePaidVal (some (Json.str "abc")) none) = none ∧
    ((JsVal.truthy (some (Json.str "abc")) = true ∧
        jsParseFloat (some (Json.str "abc")) = .nan) ∨
     (JsVal.truthy (some (Json.str "abc")) = false ∧
        JsVal.truthy (none : JsVal) = true ∧ jsParseFloat (none : JsVal) = .nan)) := by
  have hn : nanToNull (totalPricePaidVal (some (Json.str "abc")) none) = none := by
    decide
  exact ⟨hn, missing_price_defaults_zero_spec.2.2.2 (some (Json.str "abc")) none hn⟩

/-- C6 counterexample: keys are NOT collapsed to a canonical lowercase
form — the handler reads exactly the `lower_case` and `UPPER_CASE`
spellings (`x || X`), so a record supplying only the mixed-case
`Receipt_Id` does not produce the same insert record as the lowercase
spelling: its extracted receipt id is `undefined`. -/
theorem mixed_case_key_ignored_cex :
    (processReceipt mixedCaseBody false (.error ())).receiptId = none ∧
    (processReceipt lowerCaseBody false (.error ())).receiptId = some (Json.str "R1") ∧
    processReceipt mixedCaseBody false (.error ()) ≠
      processReceipt lowerCaseBody false (.error ()) := by
  refine ⟨rfl, rfl, ?_⟩
  intro h
  have h2 : (none : JsVal) = some (Json.str "R1") := congrArg InsertData.receiptId h
  cases h2

theorem jsOr_none_swap (v : JsVal) (h : SuppliedTruthy v) :
    jsOr v none = jsOr none v := by
  rcases h with h | h
  · subst h
    rfl
  · rw [jsOr_of_truthy v none h, jsOr_none_left v]

theorem totalPricePaidVal_swap (v : JsVal) (h : SuppliedTruthy v) :
    totalPricePaidVal v none = totalPricePaidVal none v := by
  unfold totalPricePaidVal
  rw [jsOr_none_swap v h]

/-- C6 amended: the handler supports exactly the all-lowercase and
all-UPPERCASE key spellings, reading each field as `x || X`; it does not
collapse keys, and mixed-case keys are ignored.  For a logical record
none of whose supplied values is falsy, supplying it all-lowercase or
all-UPPERCASE yields an identical insert record (with the same
enrichment outcome). -/
theorem case_insensitive_lower_upper (L : LogicalReceipt) (force : Bool)
    (llm : Except Unit String) (h : AllSuppliedTruthy L) :
    processReceipt (lowerBodyOf L) force llm =
      processReceipt (upperBodyOf L) force llm := by
  obtain ⟨h1, h2, h3, h4, h5, h6, h7, h8, h9, h10⟩ := h
  have e1 : extractEither (lowerBodyOf L) "receipt_id" "RECEIPT_ID" =
      jsOr L.receipt_id none := rfl
  have f1 : extractEither (upperBodyOf L) "receipt_id" "RECEIPT_ID" =
      jsOr none L.receipt_id := rfl
  have e2 : extractEither (lowerBodyOf L) "product_id" "PRODUCT_ID" =
      jsOr L.product_id none := rfl
  have f2 : extractEither (upperBodyOf L) "product_id" "PRODUCT_ID" =
      jsOr none L.product_id := rfl
  have e3 : extractEither (lowerBodyOf L) "receipt_created_timestamp"
      "RECEIPT_CREATED_TIMESTAMP" = jsOr L.receipt_created_timestamp none := rfl
  have f3 : extractEither (upperBodyOf L) "receipt_created_timestamp"
      "RECEIPT_CREATED_TIMESTAMP" = jsOr none L.receipt_created_timestamp := rfl
  have e4 : extractEither (lowerBodyOf L) "merchant_name" "MERCHANT_NAME" =
      jsOr L.merchant_name none := rfl
  have f4 : extractEither (upperBodyOf L) "merchant_name" "MERCHANT_NAME" =
      jsOr none L.merchant_name := rfl
  have e5 : extractEither (lowerBodyOf L) "product_description"
      "PRODUCT_DESCRIPTION" = jsOr L.product_description none := rfl
  have f5 : extractEither (upperBodyOf L) "product_description"
      "PRODUCT_DESCRIPTION" = jsOr none L.product_description := rfl
  have e6 : extractEither (lowerBodyOf L) "brand" "BRAND" = jsOr L.brand none := rfl
  have f6 : extractEither (upperBodyOf L) "brand" "BRAND" = jsOr none L.brand := rfl
  have e7 : extractEither (lowerBodyOf L) "product_category" "PRODUCT_CATEGORY" =
      jsOr L.product_category none := rfl
  have f7 : extractEither (upperBodyOf L) "product_category" "PRODUCT_CATEGORY" =
      jsOr none L.product_category := rfl
  have e8 : extractEither (lowerBodyOf L) "product_code" "PRODUCT_CODE" =
      jsOr L.product_code none := rfl
  have f8 : extractEither (upperBodyOf L) "product_code" "PRODUCT_CODE" =
      jsOr none L.product_code := rfl
  have e9 : extractEither (lowerBodyOf L) "product_image_url" "PRODUCT_IMAGE_URL" =
      jsOr L.product_image_url none := rfl
  have f9 : extractEither (upperBodyOf L) "product_image_url" "PRODUCT_IMAGE_URL" =
      jsOr none L.product_image_url := rfl
  have p1 : lowerBodyOf L "total_price_paid" = L.total_price_paid := rfl
  have p2 : lowerBodyOf L "TOTAL_PRICE_PAID" = none := rfl
  have p3 : upperBodyOf L "total_price_paid" = none := rfl
  have p4 : upperBodyOf L "TOTAL_PRICE_PAID" = L.total_price_paid := rfl
  simp only [processReceipt]
  rw [e1, f1, e2, f2, e3, f3, e4, f4, e5, f5, e6, f6, e7, f7, e8, f8, e9, f9,
    p1, p2, p3, p4]
  rw [jsOr_none_swap L.receipt_id h1, jsOr_none_swap L.product_id h2,
    jsOr_none_swap L.receipt_created_timestamp h3,
    jsOr_none_swap L.merchant_name h4, jsOr_none_swap L.product_description h5,
    jsOr_none_swap L.brand h6, jsOr_none_swap L.product_category h7,
    jsOr_none_swap L.product_code h9, jsOr_none_swap L.product_image_url h10]
  rw [totalPricePaidVal_swap L.total_price_paid h8]

theorem case_insensitive_lower_upper_witness :
    AllSuppliedTruthy sampleLogical ∧
    processReceipt (lowerBodyOf sampleLogical) true (.error ()) =
      processReceipt (upperBodyOf sampleLogical) true (.error ()) := by
  have hall : AllSuppliedTruthy sampleLogical :=
    ⟨Or.inr rfl, Or.inl rfl, Or.inl rfl, Or.inr rfl, Or.inr rfl, Or.inl rfl,
     Or.inl rfl, Or.inr rfl, Or.inl rfl, Or.inl rfl⟩
  exact ⟨hall, case_insensitive_lower_upper sampleLogical true (.error ()) hall⟩
